import Mathlib

/-!
Verification of the libtextclassifier character-n-gram feature extractor
(smartselect/token-feature-extractor.cc) and the language-identification
pipeline (lang_id/lang-id.cc).

Strings are modelled as lists of Unicode codepoints.  External collaborators
(the farmhash fingerprint, ICU codepoint classification, ICU regular
expressions) enter as function parameters of the embedded structures.
-/

namespace LibTextClassifier

/-- A string, modelled as its sequence of Unicode codepoints. -/
abbrev Str := List Char

/-- Mirrors `TokenFeatureExtractorOptions` from
smartselect/token-feature-extractor.h (fields as used by
token-feature-extractor.cc). -/
structure TokenFeatureExtractorOptions where
  numBuckets : Nat
  chargramOrders : List Nat
  maxWordLength : Nat
  extractCaseFeature : Bool
  extractSelectionMaskFeature : Bool
  unicodeAwareFeatures : Bool
  remapDigits : Bool
  regexpFeatures : List Str

/-- Mirrors `Token`: the text, the padding flag and the in-span flag. -/
structure Token where
  value : Str
  isPadding : Bool
  isInSpan : Bool

/-- C `isdigit` (C locale), as used on the bytes of the token by
`MapDigitsToZeroAscii` in token-feature-extractor.cc. -/
def asciiIsDigit (c : Char) : Bool := ('0' ≤ c) && (c ≤ '9')

/-- C `isupper` (C locale), as used on the first byte of the token by
`TokenFeatureExtractor::Extract` in the non-Unicode-aware mode. -/
def asciiIsUpper (c : Char) : Bool := ('A' ≤ c) && (c ≤ 'Z')

/-- `MapDigitsToZeroAscii` (token-feature-extractor.cc, lines 29-37):
replaces every byte for which `isdigit` holds by the byte `'0'`. -/
def mapDigitsToZeroAscii (token : Str) : Str :=
  token.map (fun c => if asciiIsDigit c then '0' else c)

/-- `MapDigitsToZeroUnicode` (token-feature-extractor.cc, lines 39-50):
replaces every codepoint for which ICU `u_isdigit` holds by `'0'`.
`uIsDigit` abstracts ICU `u_isdigit`. -/
def mapDigitsToZeroUnicode (uIsDigit : Char → Bool) (token : Str) : Str :=
  token.map (fun c => if uIsDigit c then '0' else c)

/-- The state of a `TokenFeatureExtractor` object: the options, the compiled
regex patterns (`none` marks a pattern whose compilation failed, kept as a
permanently-non-matching entry), and the external collaborators: ICU
`u_isupper`, ICU `u_isdigit`, and the 64-bit farmhash string fingerprint. -/
structure TokenFeatureExtractor where
  options : TokenFeatureExtractorOptions
  regexPatterns : List (Option (Str → Bool))
  uIsUpper : Char → Bool
  uIsDigit : Char → Bool
  fingerprint64 : Str → Nat

/-- The `TokenFeatureExtractor` constructor (token-feature-extractor.cc,
lines 54-68): compiles every configured regex pattern; a failed compilation
(`compileRegex p = none`) is retained in place and construction proceeds. -/
def TokenFeatureExtractor.make (options : TokenFeatureExtractorOptions)
    (compileRegex : Str → Option (Str → Bool))
    (uIsUpper uIsDigit : Char → Bool) (fingerprint64 : Str → Nat) :
    TokenFeatureExtractor :=
  { options := options
    regexPatterns := options.regexpFeatures.map compileRegex
    uIsUpper := uIsUpper
    uIsDigit := uIsDigit
    fingerprint64 := fingerprint64 }

/-- `TokenFeatureExtractor::HashToken` (lines 70-72): the 64-bit farmhash
fingerprint of the string, reduced modulo `num_buckets`. -/
def hashToken (ex : TokenFeatureExtractor) (token : Str) : Nat :=
  (ex.fingerprint64 token % 2 ^ 64) % ex.options.numBuckets

/-- The reserved padding-token string `"<PAD>"`. -/
def padStr : Str := ['<', 'P', 'A', 'D', '>']

/-- `word.substr(i, k)` on the codepoint list. -/
def substrList (w : Str) (i k : Nat) : Str := (w.drop i).take k

/-- The feature word built by `ExtractCharactergramFeaturesAscii`
(lines 89-107): digit remapping, then either trimming to a
`max_word_length / 2` head and tail joined by the reserved `'\x01'`
separator (when the word is longer than `max_word_length`), or plain
wrapping, in both cases delimited by the `'^'` and `'$'` sentinels. -/
def featureWordAscii (options : TokenFeatureExtractorOptions) (value : Str) :
    Str :=
  let word := if options.remapDigits then mapDigitsToZeroAscii value else value
  if word.length > options.maxWordLength then
    '^' :: (word.take (options.maxWordLength / 2) ++
      '\x01' :: (((word.drop (word.length - options.maxWordLength / 2)).take
          (options.maxWordLength / 2)) ++ ['$']))
  else
    '^' :: (word ++ ['$'])

/-- The cut-point loop of `ExtractCharactergramFeaturesUnicode`
(lines 142-151): `max_word_length / 2` iterations, each moving `left_cut`
forward and then `right_cut` backward while `left_cut < right_cut`.
Positions are codepoint indices into the word. -/
def cutLoop : Nat → Nat → Nat → Nat × Nat
  | 0, l, r => (l, r)
  | n + 1, l, r =>
    let l2 := if l < r then l + 1 else l
    let r2 := if l2 < r then r - 1 else r
    cutLoop n l2 r2

/-- The feature word built by `ExtractCharactergramFeaturesUnicode`
(lines 136-164): digit remapping, the cut-point loop, then either plain
wrapping (cut points met) or trimming at the cut points. -/
def featureWordUnicode (options : TokenFeatureExtractorOptions)
    (uIsDigit : Char → Bool) (value : Str) : Str :=
  let word :=
    if options.remapDigits then mapDigitsToZeroUnicode uIsDigit value
    else value
  let cuts := cutLoop (options.maxWordLength / 2) 0 word.length
  if cuts.1 = cuts.2 then
    '^' :: (word ++ ['$'])
  else
    '^' :: (word.take cuts.1 ++ '\x01' :: (word.drop cuts.2 ++ ['$']))

/-- The n-grams of one chargram order in
`ExtractCharactergramFeaturesAscii` (lines 113-125): for order 1, the
unigrams of the interior (`i` from 1 while `i < size - 1`); otherwise every
window of width `k` (`i` from 0 while `i < size - k + 1`). -/
def asciiNgrams (w : Str) (k : Nat) : List Str :=
  if k = 1 then
    (List.range' 1 (w.length - 2)).map (fun i => substrList w i 1)
  else
    (List.range (w.length + 1 - k)).map (fun i => substrList w i k)

/-- The n-grams of one chargram order in
`ExtractCharactergramFeaturesUnicode` (lines 173-200).  For order 1 the
start iterator is advanced and the end iterator retracted by one.  The
initial window is built by `chargram_order` increments of the window-end
iterator, aborting the whole order (`chargram_is_complete = false`) as soon
as the window end reaches or passes the adjusted end iterator; hence the
order is emitted only when `k = 0` or `start + k < stop`.  Complete windows
are then emitted while the window end is at most the adjusted end. -/
def unicodeNgrams (w : Str) (k : Nat) : List Str :=
  let start := if k = 1 then 1 else 0
  let stop := if k = 1 then w.length - 1 else w.length
  if k = 0 ∨ start + k < stop then
    (List.range (stop - k + 1 - start)).map
      (fun j => substrList w (start + j) k)
  else
    []

/-- `TokenFeatureExtractor::ExtractCharactergramFeaturesAscii`
(lines 83-128). -/
def extractCharactergramFeaturesAscii (ex : TokenFeatureExtractor)
    (token : Token) : List Nat :=
  if token.isPadding then
    [hashToken ex padStr]
  else
    ex.options.chargramOrders.flatMap
      (fun k =>
        (asciiNgrams (featureWordAscii ex.options token.value) k).map
          (hashToken ex))

/-- `TokenFeatureExtractor::ExtractCharactergramFeaturesUnicode`
(lines 130-203). -/
def extractCharactergramFeaturesUnicode (ex : TokenFeatureExtractor)
    (token : Token) : List Nat :=
  if token.isPadding then
    [hashToken ex padStr]
  else
    ex.options.chargramOrders.flatMap
      (fun k =>
        (unicodeNgrams (featureWordUnicode ex.options ex.uIsDigit token.value)
            k).map (hashToken ex))

/-- `TokenFeatureExtractor::ExtractCharactergramFeatures` (lines 74-81):
dispatch on `unicode_aware_features`. -/
def extractCharactergramFeatures (ex : TokenFeatureExtractor)
    (token : Token) : List Nat :=
  if ex.options.unicodeAwareFeatures then
    extractCharactergramFeaturesUnicode ex token
  else
    extractCharactergramFeaturesAscii ex token

/-- The case dense feature of `TokenFeatureExtractor::Extract`
(lines 214-230): `+1` when the token is non-empty and its first codepoint
is uppercase (ICU `u_isupper` in Unicode-aware mode, C `isupper`
otherwise), `-1` otherwise. -/
def caseFeatureValue (ex : TokenFeatureExtractor) (token : Token) : ℚ :=
  match token.value with
  | [] => -1
  | c :: _ =>
    if ex.options.unicodeAwareFeatures then
      if ex.uIsUpper c then 1 else -1
    else
      if asciiIsUpper c then 1 else -1

/-- The dense-feature part of `TokenFeatureExtractor::Extract`
(lines 214-264), appending to the caller's buffer `dense0`: the case
feature if enabled, then the selection-mask feature if enabled (`+1` in
span; otherwise `-1` in Unicode-aware mode and `0` in ASCII mode), then one
value per compiled regex pattern (`-1` for a pattern whose compilation
failed, `+1` on a `find` match, `-1` otherwise). -/
def extractDense (ex : TokenFeatureExtractor) (token : Token)
    (dense0 : List ℚ) : List ℚ :=
  let d1 :=
    if ex.options.extractCaseFeature then dense0 ++ [caseFeatureValue ex token]
    else dense0
  let d2 :=
    if ex.options.extractSelectionMaskFeature then
      d1 ++ [if token.isInSpan then (1 : ℚ)
             else if ex.options.unicodeAwareFeatures then -1 else 0]
    else d1
  ex.regexPatterns.foldl
    (fun d p =>
      match p with
      | none => d ++ [(-1 : ℚ)]
      | some matchFn =>
        if matchFn token.value then d ++ [(1 : ℚ)] else d ++ [(-1 : ℚ)])
    d2

/-- `TokenFeatureExtractor::Extract` (single token, lines 205-266).  The
two output pointers are modelled as `Option` buffers (`none` = null):
the null check comes first; otherwise the sparse buffer is assigned the
charactergram features and the dense values are appended to the dense
buffer, and the call returns `true`. -/
def extract (ex : TokenFeatureExtractor) (token : Token)
    (sparse0 : Option (List Nat)) (dense0 : Option (List ℚ)) :
    Bool × Option (List Nat) × Option (List ℚ) :=
  match sparse0, dense0 with
  | some _, some d =>
    (true, some (extractCharactergramFeatures ex token),
      some (extractDense ex token d))
  | s, d => (false, s, d)

/-- `std::vector::resize(n)` on a vector of vectors: keeps the first `n`
entries and appends default-constructed (empty) entries up to size `n`. -/
def resizeTo (l : List (List α)) (n : Nat) : List (List α) :=
  l.take n ++ List.replicate (n - l.length) []

/-- The loop of the batch `TokenFeatureExtractor::Extract`
(lines 278-283): one single-token `Extract` per token, into that token's
(non-null) slots of the resized output vectors, aborting with `false` if an
inner call fails. -/
def extractBatchGo (ex : TokenFeatureExtractor) :
    List Token → List (List ℚ) → Bool × List (List Nat) × List (List ℚ)
  | [], _ => (true, [], [])
  | t :: ts, ds =>
    match extract ex t (some []) (some (ds.headD [])) with
    | (true, s1, d1) =>
      let rest := extractBatchGo ex ts ds.tail
      (rest.1, s1.getD [] :: rest.2.1, d1.getD [] :: rest.2.2)
    | (false, _, _) => (false, [], [])

/-- The batch `TokenFeatureExtractor::Extract` (lines 268-285): null check
on the output pointers, resize of both output vectors to the token count,
then the per-token loop. -/
def extractTokens (ex : TokenFeatureExtractor) (tokens : List Token)
    (sparse0 : Option (List (List Nat))) (dense0 : Option (List (List ℚ))) :
    Bool × Option (List (List Nat)) × Option (List (List ℚ)) :=
  match sparse0, dense0 with
  | some _, some ds =>
    let r := extractBatchGo ex tokens (resizeTo ds tokens.length)
    (r.1, some r.2.1, some r.2.2)
  | s, d => (false, s, d)

/-!
The language-identification pipeline of lang_id/lang-id.cc (`LangIdImpl`).
Scores are modelled as rationals.  The tokenizer, feature extraction,
embedding-network forward pass and softmax live outside src/ (common/ and
other lang_id/ files); following the spec they form a deterministic,
length-preserving map from the input text to per-label probabilities, which
the model data carries as an abstract function.
-/

/-- Modelled from the spec: the parsed network parameters
(`EmbeddingNetworkParamsFromProto`, common/, not under src/) together with
the query pipeline they determine — tokenize, extract features, forward
pass, softmax (`ScoreLanguages`, lines 157-176, past the validity check).
`outputDim` is the output dimension of the network's final layer, and
`scorePipeline` the deterministic map from input text to the softmaxed
per-label scores (one per final-layer output). -/
structure NetworkData where
  outputDim : Nat
  scorePipeline : String → List ℚ

/-- Modelled from the spec: the results of the individual steps of
`LangIdImpl::Initialize` whose implementations (mmap, proto parsing,
`InMemoryModelData`, `EmbeddingNetwork`, `LangIdBrainInterface`) are not
under src/.  One field per fallible step, in the order Initialize and its
helpers consult them. -/
structure ModelData where
  /-- `mmap_handle.ok()` (line 89). -/
  mmapOk : Bool
  /-- `model_data.GetTaskSpec(...)` (line 100). -/
  taskSpecOk : Bool
  /-- `part_size()` of the `language-identifier-network` TaskInput
  (line 186, via `GetInMemoryFileNameForTaskInput`). -/
  networkInputPartCount : Nat
  /-- bytes for the network input are present (line 204). -/
  networkBytesOk : Bool
  /-- parse of `EmbeddingNetworkProto` plus
  `EmbeddingNetworkParamsFromProto::is_valid` (lines 209-218):
  `none` on failure. -/
  networkProto : Option NetworkData
  /-- `EmbeddingNetwork::is_valid` after construction (line 113). -/
  networkValid : Bool
  /-- `part_size()` of the `language-name-id-map` TaskInput. -/
  langInputPartCount : Nat
  /-- bytes for the language-list input are present (line 251). -/
  langBytesOk : Bool
  /-- parse of the outer `ListOfStrings` (line 256): its records. -/
  langOuterRecords : Option (List String)
  /-- parse of the single record as the inner `ListOfStrings`
  (line 266): the language codes. -/
  langInner : Option (List String)
  /-- `context.Get("reliability_thresh", 0.50)` (lines 117-118). -/
  reliabilityThresh : ℚ
  /-- `lang_id_brain_interface_.Init(&context)` (line 119). -/
  brainInitOk : Bool

/-- `LangIdImpl::ParseNetworkParams` (lines 194-220): requires the
TaskInput to have exactly one part (else `GetInMemoryFileNameForTaskInput`
returns the empty name), the bytes to be present, and the proto to parse
into valid parameters. -/
def parseNetworkParams (md : ModelData) : Option NetworkData :=
  if md.networkInputPartCount = 1 then
    if md.networkBytesOk then md.networkProto else none
  else none

/-- `LangIdImpl::ParseListOfKnownLanguages` (lines 241-271): requires the
TaskInput to have exactly one part, the bytes to be present, the outer
`ListOfStrings` to parse and hold exactly one record, and that record to
parse as the inner `ListOfStrings` of language codes. -/
def parseListOfKnownLanguages (md : ModelData) : Option (List String) :=
  if md.langInputPartCount = 1 then
    if md.langBytesOk then
      match md.langOuterRecords with
      | none => none
      | some records =>
        if records.length = 1 then md.langInner else none
    else none
  else none

/-- The member state of a `LangIdImpl` object (lines 285-307). -/
structure LangIdState where
  valid : Bool
  probabilityThreshold : ℚ
  defaultLanguage : String
  languages : List String
  network : Option NetworkData

/-- `kDefaultProbabilityThreshold = 0.50` (line 56). -/
def kDefaultProbabilityThreshold : ℚ := mkRat 1 2

/-- The member state before `Initialize` runs: the field initializers of
`LangIdImpl` (lines 294-305). -/
def langIdInitialState : LangIdState :=
  { valid := false
    probabilityThreshold := kDefaultProbabilityThreshold
    defaultLanguage := ""
    languages := []
    network := none }

/-- `LangIdImpl::Initialize` (lines 81-123): `valid_` becomes true only
when every step succeeds; member fields keep the assignments of the steps
that ran before a failing one. -/
def langIdInit (md : ModelData) : LangIdState :=
  if md.mmapOk then
    if md.taskSpecOk then
      match parseNetworkParams md with
      | none => langIdInitialState
      | some nd =>
        match parseListOfKnownLanguages md with
        | none => { langIdInitialState with network := some nd }
        | some langs =>
          if md.networkValid then
            if md.brainInitOk then
              { valid := true
                probabilityThreshold := md.reliabilityThresh
                defaultLanguage := ""
                languages := langs
                network := some nd }
            else
              { langIdInitialState with
                network := some nd
                languages := langs
                probabilityThreshold := md.reliabilityThresh }
          else
            { langIdInitialState with network := some nd, languages := langs }
    else langIdInitialState
  else langIdInitialState

/-- `LangIdImpl::SetProbabilityThreshold` (lines 125-127). -/
def setProbabilityThreshold (st : LangIdState) (threshold : ℚ) :
    LangIdState :=
  { st with probabilityThreshold := threshold }

/-- `LangIdImpl::SetDefaultLanguage` (line 129). -/
def setDefaultLanguage (st : LangIdState) (lang : String) : LangIdState :=
  { st with defaultLanguage := lang }

/-- `LangIdImpl::ScoreLanguages` (lines 157-176): the empty list when the
classifier is not valid, otherwise the softmaxed scores of the network
pipeline on the text. -/
def scoreLanguages (st : LangIdState) (text : String) : List ℚ :=
  if st.valid then
    match st.network with
    | some nd => nd.scorePipeline text
    | none => []
  else []

/-- Modelled from the spec: `GetArgMax` (common/algorithm.h, not under
src/) — the index of the maximal score, ties resolved by the first
occurrence in list order. -/
def getArgMax : List ℚ → Nat
  | [] => 0
  | [_] => 0
  | x :: y :: ys =>
    if x < (y :: ys).getD (getArgMax (y :: ys)) 0 then getArgMax (y :: ys) + 1
    else 0

/-- `LangIdImpl::GetLanguageForSoftmaxLabel` (lines 275-283): the language
code at the label when the label is inside `[0, languages.size())`, the
default language otherwise. -/
def getLanguageForSoftmaxLabel (st : LangIdState) (label : Int) : String :=
  if 0 ≤ label ∧ label < st.languages.length then
    st.languages.getD label.toNat ""
  else st.defaultLanguage

/-- `LangIdImpl::FindLanguage` (lines 131-144). -/
def findLanguage (st : LangIdState) (text : String) : String :=
  if scoreLanguages st text = [] then st.defaultLanguage
  else if (scoreLanguages st text).getD (getArgMax (scoreLanguages st text)) 0
      < st.probabilityThreshold then
    st.defaultLanguage
  else
    getLanguageForSoftmaxLabel st (getArgMax (scoreLanguages st text))

/-- `LangIdImpl::FindLanguages` (lines 146-155): one
`(GetLanguageForSoftmaxLabel(i), scores[i])` pair per score index. -/
def findLanguages (st : LangIdState) (text : String) : List (String × ℚ) :=
  (List.range (scoreLanguages st text).length).map
    (fun (i : Nat) =>
      (getLanguageForSoftmaxLabel st i,
        (scoreLanguages st text).getD i 0))

/-!
Concrete sample instantiations, used by the closed theorems below.  The
universally quantified theorems hold for every fingerprint, regex compiler
and codepoint classifier; these samples pick simple executable ones.
-/

/-- A concrete stand-in fingerprint for closed evaluations (the quantified
theorems hold for every fingerprint function). -/
def sampleFingerprint (s : Str) : Nat := s.length

def sampleOptions : TokenFeatureExtractorOptions :=
  { numBuckets := 1000
    chargramOrders := [1]
    maxWordLength := 20
    extractCaseFeature := false
    extractSelectionMaskFeature := false
    unicodeAwareFeatures := false
    remapDigits := false
    regexpFeatures := [] }

def sampleExtractor : TokenFeatureExtractor :=
  TokenFeatureExtractor.make sampleOptions (fun _ => none) asciiIsUpper
    asciiIsDigit sampleFingerprint

/-- The single-codepoint token "a". -/
def tokenA : Token := { value := ['a'], isPadding := false, isInSpan := false }

/-- The token "ab". -/
def tokenAB : Token :=
  { value := ['a', 'b'], isPadding := false, isInSpan := false }

/-- Options with digit remapping and orders {1,2,3}. -/
def remapOptions : TokenFeatureExtractorOptions :=
  { sampleOptions with chargramOrders := [1, 2, 3], remapDigits := true }

def remapExtractor : TokenFeatureExtractor :=
  TokenFeatureExtractor.make remapOptions (fun _ => none) asciiIsUpper
    asciiIsDigit sampleFingerprint

/-- The token "abc123". -/
def tokenABC123 : Token :=
  { value := ['a', 'b', 'c', '1', '2', '3'], isPadding := false,
    isInSpan := false }

/-- A model whose final layer has two outputs while its language list has
a single entry. -/
def mismatchedModel : ModelData :=
  { mmapOk := true
    taskSpecOk := true
    networkInputPartCount := 1
    networkBytesOk := true
    networkProto := some
      { outputDim := 2, scorePipeline := fun _ => [mkRat 1 10, mkRat 9 10] }
    networkValid := true
    langInputPartCount := 1
    langBytesOk := true
    langOuterRecords := some ["record"]
    langInner := some ["en"]
    reliabilityThresh := mkRat 1 2
    brainInitOk := true }

/-- A model whose final layer has one output while its language list has
two entries. -/
def shortScoreModel : ModelData :=
  { mismatchedModel with
    networkProto := some { outputDim := 1, scorePipeline := fun _ => [1] }
    langInner := some ["en", "fr"] }

/-- A well-formed model: two languages, two final-layer outputs. -/
def wellFormedModel : ModelData :=
  { mismatchedModel with
    networkProto := some
      { outputDim := 2, scorePipeline := fun _ => [mkRat 9 10, mkRat 1 10] }
    langInner := some ["en", "fr"] }

/-! Helper lemmas. -/

/-- The ASCII feature word always holds at least the two sentinels. -/
theorem featureWordAscii_length_ge (options : TokenFeatureExtractorOptions)
    (value : Str) : 2 ≤ (featureWordAscii options value).length := by
  unfold featureWordAscii
  dsimp only
  split <;> split <;> simp <;> omega

theorem mapDigitsToZeroAscii_length (s : Str) :
    (mapDigitsToZeroAscii s).length = s.length := by
  simp [mapDigitsToZeroAscii]

theorem mapDigitsToZeroUnicode_length (uIsDigit : Char → Bool) (s : Str) :
    (mapDigitsToZeroUnicode uIsDigit s).length = s.length := by
  simp [mapDigitsToZeroUnicode]

/-- On all-ASCII strings a digit classifier that agrees with C `isdigit`
below 128 makes the Unicode digit remap coincide with the ASCII one. -/
theorem mapDigitsToZero_agree (uIsDigit : Char → Bool) (s : Str)
    (hs : ∀ c ∈ s, c.toNat < 128)
    (hd : ∀ c, c.toNat < 128 → uIsDigit c = asciiIsDigit c) :
    mapDigitsToZeroUnicode uIsDigit s = mapDigitsToZeroAscii s := by
  unfold mapDigitsToZeroUnicode mapDigitsToZeroAscii
  exact List.map_congr_left fun c hc => by rw [hd c (hs c hc)]

theorem cutLoop_meet :
    ∀ (h l r : Nat), l ≤ r → r - l ≤ 2 * h →
      (cutLoop h l r).1 = (cutLoop h l r).2 := by
  intro h
  induction h with
  | zero =>
    intro l r hlr hgap
    have : l = r := by omega
    simp [cutLoop, this]
  | succ n ih =>
    intro l r hlr hgap
    rw [cutLoop]
    by_cases h1 : l < r
    · simp only [h1, if_true]
      by_cases h2 : l + 1 < r
      · simp only [h2, if_true]
        exact ih (l + 1) (r - 1) (by omega) (by omega)
      · simp only [h2, if_false]
        have hr : r = l + 1 := by omega
        exact ih (l + 1) r (by omega) (by omega)
    · simp only [h1, if_false]
      exact ih l r hlr (by omega)

theorem cutLoop_cut :
    ∀ (h l r : Nat), 2 * h < r - l → cutLoop h l r = (l + h, r - h) := by
  intro h
  induction h with
  | zero => intro l r _; simp [cutLoop]
  | succ n ih =>
    intro l r hgap
    have h1 : l < r := by omega
    have h2 : l + 1 < r := by omega
    rw [cutLoop]
    simp only [h1, if_true, h2, if_true]
    rw [ih (l + 1) (r - 1) (by omega)]
    simp only [Prod.mk.injEq]
    exact ⟨by omega, by omega⟩

/-- The two feature-word constructions coincide, for any word, except when
`max_word_length` is odd and the word length equals it exactly (there the
Unicode path trims while the ASCII path does not). -/
theorem featureWord_eq (options : TokenFeatureExtractorOptions)
    (uIsDigit : Char → Bool) (value : Str)
    (hd : mapDigitsToZeroUnicode uIsDigit value = mapDigitsToZeroAscii value)
    (hodd : ¬(options.maxWordLength % 2 = 1 ∧
        value.length = options.maxWordLength)) :
    featureWordUnicode options uIsDigit value = featureWordAscii options value := by
  unfold featureWordUnicode featureWordAscii
  have hw :
      (if options.remapDigits then mapDigitsToZeroUnicode uIsDigit value
       else value) =
      (if options.remapDigits then mapDigitsToZeroAscii value else value) := by
    by_cases hr : options.remapDigits <;> simp [hr, hd]
  rw [hw]
  dsimp only
  set word := if options.remapDigits then mapDigitsToZeroAscii value else value
    with hword
  have hlen : word.length = value.length := by
    by_cases hr : options.remapDigits <;>
      simp [hword, hr, mapDigitsToZeroAscii_length]
  set m := options.maxWordLength with hm
  by_cases htrim : word.length > m
  · -- both paths trim
    have hcut : cutLoop (m / 2) 0 word.length = (m / 2, word.length - m / 2) := by
      have := cutLoop_cut (m / 2) 0 word.length (by omega)
      simpa using this
    have hne : (m / 2 : Nat) ≠ word.length - m / 2 := by omega
    have htake : (word.drop (word.length - m / 2)).take (m / 2) =
        word.drop (word.length - m / 2) := by
      apply List.take_of_length_le
      simp only [List.length_drop]
      omega
    rw [hcut, if_pos htrim, if_neg hne, htake]
  · -- word is short enough: ASCII wraps; the Unicode cut points meet
    have hshort : word.length ≤ m := by omega
    have hgap : word.length - 0 ≤ 2 * (m / 2) := by omega
    have hcut := cutLoop_meet (m / 2) 0 word.length (Nat.zero_le _) hgap
    rw [if_neg htrim, if_pos hcut]

/-- Pointwise congruence for `List.flatMap`. -/
theorem flatMap_congr_mem {l : List α} {f g : α → List β}
    (h : ∀ a ∈ l, f a = g a) : l.flatMap f = l.flatMap g := by
  induction l with
  | nil => rfl
  | cons x xs ih =>
    simp only [List.flatMap_cons]
    rw [h x (List.mem_cons_self x xs), ih fun a ha => h a (List.mem_cons_of_mem x ha)]

/-- The ASCII and Unicode n-gram loops agree on a common feature word of
length at least 2, except when the order exactly fills its window: order 1
on a feature word of length 3, or an order `k ≥ 2` equal to the feature
word length (the Unicode loop then emits nothing while the ASCII loop
emits the single filling n-gram). -/
theorem ngrams_eq (w : Str) (k : Nat) (hw : 2 ≤ w.length)
    (h1 : ¬(k = 1 ∧ w.length = 3)) (h2 : ¬(2 ≤ k ∧ w.length = k)) :
    unicodeNgrams w k = asciiNgrams w k := by
  unfold unicodeNgrams asciiNgrams
  match k with
  | 0 => norm_num
  | 1 =>
    norm_num
    by_cases hc : 1 + 1 < w.length - 1
    · rw [if_pos hc]
      have hcount : w.length - 1 - 1 = w.length - 2 := by omega
      rw [hcount, List.range'_eq_map_range, List.map_map]
      rfl
    · have hn2 : w.length = 2 := by omega
      rw [if_neg hc]
      simp [hn2]
  | (n + 2) =>
    have e1 : ¬(n + 2 = 1) := by omega
    have e0 : ¬(n + 2 = 0) := by omega
    simp only [if_neg e1, if_neg e0, Nat.zero_add, Nat.sub_zero, false_or]
    by_cases hc : n + 2 < w.length
    · rw [if_pos (Or.inr hc)]
      have hcount : w.length - (n + 2) + 1 = w.length + 1 - (n + 2) := by omega
      rw [hcount]
    · rw [if_neg (by omega : ¬(n + 2 = 0 ∨ n + 2 < w.length))]
      have hzero : w.length + 1 - (n + 2) = 0 := by omega
      simp [hzero]

/-- The inner loop of the batch extract never fails: every inner call gets
non-null output slots. -/
theorem extractBatchGo_fst (ex : TokenFeatureExtractor) :
    ∀ (toks : List Token) (ds : List (List ℚ)),
      (extractBatchGo ex toks ds).1 = true := by
  intro toks
  induction toks with
  | nil => intro ds; rfl
  | cons t ts ih =>
    intro ds
    simp only [extractBatchGo, extract]
    exact ih ds.tail

/-- First-maximum specification of `getArgMax`: the result is in range,
carries a maximal score, and every earlier index carries a strictly
smaller score. -/
theorem getArgMax_spec :
    ∀ s : List ℚ, s ≠ [] →
      getArgMax s < s.length ∧
      (∀ j, j < s.length → s.getD j 0 ≤ s.getD (getArgMax s) 0) ∧
      (∀ j, j < getArgMax s → s.getD j 0 < s.getD (getArgMax s) 0) := by
  intro s
  induction s with
  | nil => intro h; exact absurd rfl h
  | cons x t ih =>
    intro _
    match t, ih with
    | [], _ =>
      refine ⟨by simp [getArgMax], ?_, ?_⟩
      · intro j hj
        have hj0 : j = 0 := by
          simp only [List.length_cons, List.length_nil] at hj
          omega
        subst hj0
        simp [getArgMax]
      · intro j hj
        simp [getArgMax] at hj
    | y :: ys, ih =>
      have ht := ih (by simp)
      obtain ⟨hbound, hmax, hfirst⟩ := ht
      show getArgMax (x :: y :: ys) < (x :: y :: ys).length ∧ _ ∧ _
      rw [getArgMax]
      by_cases hx : x < (y :: ys).getD (getArgMax (y :: ys)) 0
      · simp only [hx, if_true]
        refine ⟨by simpa using hbound, ?_, ?_⟩
        · intro j hj
          match j with
          | 0 => simpa using le_of_lt hx
          | j + 1 =>
            simp only [List.getD_cons_succ]
            exact hmax j (by simpa using hj)
        · intro j hj
          match j with
          | 0 => simpa using hx
          | j + 1 =>
            simp only [List.getD_cons_succ]
            exact hfirst j (by omega)
      · simp only [hx, if_false]
        push_neg at hx
        refine ⟨by simp, ?_, ?_⟩
        · intro j hj
          match j with
          | 0 => simp
          | j + 1 =>
            simp only [List.getD_cons_succ, List.getD_cons_zero]
            exact le_trans (hmax j (by simpa using hj)) hx
        · intro j hj
          omega

/-- A left fold whose body appends a single mapped element equals an
append of the mapped list (the shape of the regex loop of `Extract`). -/
theorem foldl_append_of_body {α : Type} (l : List α)
    (F : List ℚ → α → List ℚ) (g : α → ℚ)
    (hF : ∀ d a, F d a = d ++ [g a]) :
    ∀ d : List ℚ, l.foldl F d = d ++ l.map g := by
  induction l with
  | nil => intro d; simp
  | cons x xs ih =>
    intro d
    simp only [List.foldl_cons, List.map_cons]
    rw [hF, ih]
    simp

/-- Every id emitted by the ASCII charactergram extractor is a
`hashToken` value. -/
theorem mem_extractAscii_form (ex : TokenFeatureExtractor) (token : Token)
    (fid : Nat) (hmem : fid ∈ extractCharactergramFeaturesAscii ex token) :
    ∃ s : Str, fid = hashToken ex s := by
  unfold extractCharactergramFeaturesAscii at hmem
  by_cases hp : token.isPadding = true
  · simp only [hp, if_true, List.mem_singleton] at hmem
    exact ⟨padStr, hmem⟩
  · simp only [hp, Bool.false_eq_true, if_false, List.mem_flatMap,
      List.mem_flatten, List.mem_map] at hmem
    obtain ⟨k, _, gram, _, hg⟩ := hmem
    exact ⟨gram, hg.symm⟩

/-- Every id emitted by the Unicode charactergram extractor is a
`hashToken` value. -/
theorem mem_extractUnicode_form (ex : TokenFeatureExtractor) (token : Token)
    (fid : Nat) (hmem : fid ∈ extractCharactergramFeaturesUnicode ex token) :
    ∃ s : Str, fid = hashToken ex s := by
  unfold extractCharactergramFeaturesUnicode at hmem
  by_cases hp : token.isPadding = true
  · simp only [hp, if_true, List.mem_singleton] at hmem
    exact ⟨padStr, hmem⟩
  · simp only [hp, Bool.false_eq_true, if_false, List.mem_flatMap,
      List.mem_flatten, List.mem_map] at hmem
    obtain ⟨k, _, gram, _, hg⟩ := hmem
    exact ⟨gram, hg.symm⟩

/-! The claims. -/

/-- C1, counterexample to the claim as stated: for the all-ASCII
single-codepoint token "a" with n-gram orders {1}, the ASCII extractor
emits the hashed unigram "a" while the Unicode-aware extractor emits
nothing: its completeness check (`it_chargram_end >= it_end`,
token-feature-extractor.cc line 186) also fires when the n-gram exactly
fills the window, dropping it. -/
theorem c1_counterexample :
    tokenA.value = ['a'] ∧
    tokenA.isPadding = false ∧
    sampleOptions.chargramOrders = [1] ∧
    extractCharactergramFeaturesAscii sampleExtractor tokenA =
      [hashToken sampleExtractor ['a']] ∧
    extractCharactergramFeaturesUnicode sampleExtractor tokenA = [] := by
  decide

/-- C1 (amended): for ASCII-only tokens, with an ICU digit classifier
agreeing with C `isdigit` on ASCII, `ExtractCharactergramFeaturesAscii`
and `ExtractCharactergramFeaturesUnicode` return identical ordered hashed
id sequences for every configured set of n-gram orders and every
`max_word_length`, provided no configured order exactly fills its sliding
window (order 1 with a feature word of length 3, or an order `k ≥ 2` equal
to the feature word length — there the Unicode path omits the single
n-gram the ASCII path emits) and the word length does not equal an odd
`max_word_length` (there the Unicode path trims while the ASCII path does
not). -/
theorem c1_ascii_unicode_agree (ex : TokenFeatureExtractor) (token : Token)
    (hascii : ∀ c ∈ token.value, c.toNat < 128)
    (hdig : ∀ c, c.toNat < 128 → ex.uIsDigit c = asciiIsDigit c)
    (hodd : ¬(ex.options.maxWordLength % 2 = 1 ∧
        token.value.length = ex.options.maxWordLength))
    (horders : ∀ k ∈ ex.options.chargramOrders,
        ¬(k = 1 ∧ (featureWordAscii ex.options token.value).length = 3) ∧
        ¬(2 ≤ k ∧ (featureWordAscii ex.options token.value).length = k)) :
    extractCharactergramFeaturesUnicode ex token =
      extractCharactergramFeaturesAscii ex token := by
  unfold extractCharactergramFeaturesUnicode extractCharactergramFeaturesAscii
  by_cases hp : token.isPadding = true
  · simp only [hp, if_true]
  · simp only [hp, if_false]
    rw [featureWord_eq ex.options ex.uIsDigit token.value
      (mapDigitsToZero_agree ex.uIsDigit token.value hascii hdig) hodd]
    exact flatMap_congr_mem fun k hk =>
      congrArg (List.map (hashToken ex))
        (ngrams_eq _ k (featureWordAscii_length_ge _ _) (horders k hk).1
          (horders k hk).2)

/-- C1 witness: a concrete agreeing configuration (token "ab", orders
{1,2,3}, `max_word_length` 20). -/
theorem c1_witness :
    extractCharactergramFeaturesUnicode remapExtractor tokenAB =
      extractCharactergramFeaturesAscii remapExtractor tokenAB :=
  c1_ascii_unicode_agree remapExtractor tokenAB (by decide) (fun c _ => rfl)
    (by decide) (by decide)

/-- C5: `Extract` appends dense values to the caller's buffer in the fixed
order case feature, selection-mask feature, then one value per configured
regular expression: case is +1 exactly when the token is non-empty and its
first codepoint is uppercase (else -1); the selection mask is +1 in span
and otherwise -1 in Unicode-aware mode but 0 in ASCII mode; each regex
value is +1 on match and -1 on no-match, with a pattern that failed to
compile permanently emitting -1.  Construction (`make`) is a total
function, so a failed compilation never aborts it. -/
theorem c5_dense_feature_layout (options : TokenFeatureExtractorOptions)
    (compileRegex : Str → Option (Str → Bool))
    (uIsUpper uIsDigit : Char → Bool) (fingerprint64 : Str → Nat)
    (token : Token) (dense0 : List ℚ) :
    extractDense
        (TokenFeatureExtractor.make options compileRegex uIsUpper uIsDigit
          fingerprint64) token dense0 =
      dense0 ++
        ((if options.extractCaseFeature then
            [match token.value with
             | [] => (-1 : ℚ)
             | c :: _ =>
               if (if options.unicodeAwareFeatures then uIsUpper c
                   else asciiIsUpper c) then 1 else -1]
          else []) ++
          ((if options.extractSelectionMaskFeature then
              [if token.isInSpan then (1 : ℚ)
               else if options.unicodeAwareFeatures then -1 else 0]
            else []) ++
            options.regexpFeatures.map
              (fun p =>
                match compileRegex p with
                | none => (-1 : ℚ)
                | some matchFn => if matchFn token.value then 1 else -1))) ∧
    (extract
        (TokenFeatureExtractor.make options compileRegex uIsUpper uIsDigit
          fingerprint64) token (some []) (some dense0)).2.2 =
      some
        (extractDense
          (TokenFeatureExtractor.make options compileRegex uIsUpper uIsDigit
            fingerprint64) token dense0) := by
  refine ⟨?_, rfl⟩
  unfold extractDense caseFeatureValue
  dsimp only [TokenFeatureExtractor.make]
  rw [foldl_append_of_body _ _
      (fun p : Option (Str → Bool) =>
        match p with
        | none => (-1 : ℚ)
        | some matchFn => if matchFn token.value then 1 else -1) ?hbody]
  case hbody =>
    intro d a
    cases a with
    | none => rfl
    | some f => by_cases hf : f token.value <;> simp [hf]
  rw [List.map_map]
  cases token.value <;>
    by_cases hu : options.unicodeAwareFeatures <;>
      by_cases hc : options.extractCaseFeature <;>
        by_cases hm : options.extractSelectionMaskFeature <;>
          simp [hu, hc, hm, Function.comp, List.append_assoc]

/-- C6: for every non-padding all-ASCII token strictly shorter than
`max_word_length`, the feature word over which n-grams are generated is
`"^" + token + "$"` with every decimal digit first remapped to '0' when
digit remapping is enabled, and the n-gram extraction runs over exactly
that word; in particular "abc123" with remapping yields "^abc000$". -/
theorem c6_feature_word (ex : TokenFeatureExtractor) (token : Token)
    (hpad : token.isPadding = false)
    (hlen : token.value.length < ex.options.maxWordLength)
    (_hascii : ∀ c ∈ token.value, c.toNat < 128) :
    featureWordAscii ex.options token.value =
      '^' :: ((if ex.options.remapDigits then mapDigitsToZeroAscii token.value
               else token.value) ++ ['$']) ∧
    extractCharactergramFeaturesAscii ex token =
      ex.options.chargramOrders.flatMap
        (fun k =>
          (asciiNgrams
              ('^' :: ((if ex.options.remapDigits then
                  mapDigitsToZeroAscii token.value else token.value) ++ ['$']))
              k).map (hashToken ex)) ∧
    featureWordAscii remapOptions tokenABC123.value =
      ['^', 'a', 'b', 'c', '0', '0', '0', '$'] := by
  have hwl :
      (if ex.options.remapDigits then mapDigitsToZeroAscii token.value
       else token.value).length = token.value.length := by
    by_cases hr : ex.options.remapDigits <;>
      simp [hr, mapDigitsToZeroAscii_length]
  have hword : featureWordAscii ex.options token.value =
      '^' :: ((if ex.options.remapDigits then mapDigitsToZeroAscii token.value
               else token.value) ++ ['$']) := by
    unfold featureWordAscii
    dsimp only
    rw [if_neg (by rw [hwl]; omega)]
  refine ⟨hword, ?_, by decide⟩
  unfold extractCharactergramFeaturesAscii
  rw [if_neg (by simp [hpad]), hword]

/-- C6 witness: the token "abc123" with digit remapping, shorter than
`max_word_length` 20. -/
theorem c6_witness :
    featureWordAscii remapExtractor.options tokenABC123.value =
      '^' :: ((if remapExtractor.options.remapDigits then
          mapDigitsToZeroAscii tokenABC123.value else tokenABC123.value) ++
        ['$']) :=
  (c6_feature_word remapExtractor tokenABC123 (by decide) (by decide)
    (by decide)).1

/-- C7: both forms of `Extract` return false exactly when the sparse or
the dense output pointer is null, and return true for every token content
otherwise. -/
theorem c7_null_check (ex : TokenFeatureExtractor) (token : Token)
    (tokens : List Token) (sparse0 : Option (List Nat))
    (dense0 : Option (List ℚ)) (sparseB : Option (List (List Nat)))
    (denseB : Option (List (List ℚ))) :
    ((extract ex token sparse0 dense0).1 = false ↔
      (sparse0 = none ∨ dense0 = none)) ∧
    ((extractTokens ex tokens sparseB denseB).1 = false ↔
      (sparseB = none ∨ denseB = none)) := by
  constructor
  · cases sparse0 <;> cases dense0 <;> simp [extract]
  · cases sparseB <;> cases denseB <;>
      simp [extractTokens, extractBatchGo_fst]

/-- C10: with `num_buckets > 0`, every sparse feature id emitted by the
charactergram extraction — including the padding token's reserved id — is
a 64-bit fingerprint reduced modulo `num_buckets` and so lies in
`[0, num_buckets)`. -/
theorem c10_bucket_range (ex : TokenFeatureExtractor) (token : Token)
    (h : 0 < ex.options.numBuckets) :
    (∀ fid ∈ extractCharactergramFeatures ex token,
      fid < ex.options.numBuckets) ∧
    hashToken ex padStr < ex.options.numBuckets := by
  have hb : ∀ s : Str, hashToken ex s < ex.options.numBuckets :=
    fun s => Nat.mod_lt _ h
  refine ⟨?_, hb padStr⟩
  intro fid hmem
  unfold extractCharactergramFeatures at hmem
  by_cases hu : ex.options.unicodeAwareFeatures = true
  · rw [if_pos hu] at hmem
    obtain ⟨s, hs⟩ := mem_extractUnicode_form ex token fid hmem
    exact hs ▸ hb s
  · rw [if_neg hu] at hmem
    obtain ⟨s, hs⟩ := mem_extractAscii_form ex token fid hmem
    exact hs ▸ hb s

/-- C10 witness: the sample extractor (1000 buckets) at the padding id and
at the unigram ids of token "a". -/
theorem c10_witness :
    0 < sampleExtractor.options.numBuckets ∧
    hashToken sampleExtractor padStr < sampleExtractor.options.numBuckets :=
  ⟨by decide, (c10_bucket_range sampleExtractor tokenA (by decide)).2⟩

/-- C2, counterexample to the claim as stated: a model with two
final-layer outputs but a single language entry passes every load step —
`Initialize` leaves the classifier valid, the language list with one
entry and the network with output dimension two; the query pipeline really
yields two scores.  No load step compares the two counts. -/
theorem c2_counterexample :
    (langIdInit mismatchedModel).valid = true ∧
    (langIdInit mismatchedModel).languages = ["en"] ∧
    (langIdInit mismatchedModel).network =
      some
        { outputDim := 2, scorePipeline := fun _ => [mkRat 1 10, mkRat 9 10] } ∧
    (scoreLanguages (langIdInit mismatchedModel) "").length = 2 := by
  exact ⟨rfl, rfl, rfl, rfl⟩

/-- C2 (amended): `Initialize` validates the mmap, the task spec, the
network parse, the language-list double-unwrap, the network validity and
the brain-interface init — and nothing else; in particular validity never
involves comparing the language count with the final layer's output
dimension, and a model where they differ loads as valid. -/
theorem c2_valid_iff (md : ModelData) :
    (langIdInit md).valid = true ↔
      (md.mmapOk = true ∧ md.taskSpecOk = true ∧
        parseNetworkParams md ≠ none ∧
        parseListOfKnownLanguages md ≠ none ∧
        md.networkValid = true ∧ md.brainInitOk = true) := by
  unfold langIdInit
  by_cases h1 : md.mmapOk = true <;> by_cases h2 : md.taskSpecOk = true <;>
    simp only [h1, h2, if_true, if_false, Bool.false_eq_true,
      langIdInitialState] <;>
    try simp [h1, h2]
  cases hn : parseNetworkParams md <;>
    cases hl : parseListOfKnownLanguages md <;>
      by_cases h5 : md.networkValid = true <;>
        by_cases h6 : md.brainInitOk = true <;>
          simp [h5, h6, langIdInitialState]

/-- C3, counterexample to the claim as stated: on a valid classifier whose
score vector (length two) outruns its language list (one entry), the
arg-max index 1 has probability 9/10, at or above the threshold 1/2, yet
`FindLanguage` returns the default language "xx" — the score list is
non-empty and the arg-max clears the threshold, so by the claim the result
should be the code at the arg-max index. -/
theorem c3_counterexample :
    scoreLanguages (setDefaultLanguage (langIdInit mismatchedModel) "xx") ""
      = [mkRat 1 10, mkRat 9 10] ∧
    getArgMax [mkRat 1 10, mkRat 9 10] = 1 ∧
    ¬(mkRat 9 10 <
      (setDefaultLanguage
        (langIdInit mismatchedModel) "xx").probabilityThreshold) ∧
    (setDefaultLanguage (langIdInit mismatchedModel) "xx").languages
      = ["en"] ∧
    findLanguage (setDefaultLanguage (langIdInit mismatchedModel) "xx") ""
      = "xx" := by
  decide

/-- C3 (amended): `FindLanguage` returns the default language when the
score list is empty (in particular whenever the classifier is invalid) or
when the arg-max probability is strictly below the threshold, and also
when the arg-max index falls outside the language list (possible since the
score length is never checked against the language count); otherwise it
returns the language code at the arg-max index.  `getArgMax` picks the
first maximal index: it is in range, maximal, and strictly above every
earlier score. -/
theorem c3_find_language (st : LangIdState) (text : String)
    (scores : List ℚ) (hs : scores = scoreLanguages st text) :
    (scores = [] → findLanguage st text = st.defaultLanguage) ∧
    (scores ≠ [] →
      getArgMax scores < scores.length ∧
      (∀ j, j < scores.length →
        scores.getD j 0 ≤ scores.getD (getArgMax scores) 0) ∧
      (∀ j, j < getArgMax scores →
        scores.getD j 0 < scores.getD (getArgMax scores) 0) ∧
      (scores.getD (getArgMax scores) 0 < st.probabilityThreshold →
        findLanguage st text = st.defaultLanguage) ∧
      (¬scores.getD (getArgMax scores) 0 < st.probabilityThreshold →
        (getArgMax scores < st.languages.length →
          findLanguage st text = st.languages.getD (getArgMax scores) "") ∧
        (st.languages.length ≤ getArgMax scores →
          findLanguage st text = st.defaultLanguage))) := by
  subst hs
  constructor
  · intro he
    unfold findLanguage
    rw [if_pos he]
  · intro hne
    obtain ⟨hb, hmax, hfirst⟩ := getArgMax_spec _ hne
    refine ⟨hb, hmax, hfirst, ?_, ?_⟩
    · intro hlt
      unfold findLanguage
      rw [if_neg hne, if_pos hlt]
    · intro hge
      constructor
      · intro hin
        unfold findLanguage getLanguageForSoftmaxLabel
        rw [if_neg hne, if_neg hge,
          if_pos ⟨Int.natCast_nonneg _, by exact_mod_cast hin⟩]
        simp
      · intro hout
        unfold findLanguage getLanguageForSoftmaxLabel
        rw [if_neg hne, if_neg hge, if_neg ?hcond]
        case hcond =>
          rintro ⟨_, h2⟩
          have : getArgMax (scoreLanguages st text) < st.languages.length := by
            exact_mod_cast h2
          omega

/-- C3 witness: on the well-formed two-language model the arg-max is in
range and `FindLanguage` returns its language code. -/
theorem c3_witness :
    findLanguage (langIdInit wellFormedModel) "" = "en" := by
  have h := ((c3_find_language (langIdInit wellFormedModel) "" _ rfl).2
    (by decide)).2.2.2.2 (by decide)
  rw [h.1 (by decide)]
  decide

/-- C4, counterexample to the claim as stated: a valid classifier whose
final layer yields one score while its language list holds two entries
returns a single pair from `FindLanguages` — not one pair per language
entry. -/
theorem c4_counterexample :
    (langIdInit shortScoreModel).valid = true ∧
    (langIdInit shortScoreModel).languages = ["en", "fr"] ∧
    findLanguages (langIdInit shortScoreModel) "" = [("en", 1)] := by
  decide

/-- C4 (amended): `FindLanguages` returns one pair per softmax score (the
final-layer output), in order — pair `i` carries the language code at `i`
when `i` is inside the language list and the default language otherwise,
with the score unfiltered by the probability threshold; on an invalid
classifier it returns the empty list.  When the score count equals the
language count this is exactly one pair per language entry in list
order. -/
theorem c4_find_languages (st : LangIdState) (text : String) :
    (st.valid = false → findLanguages st text = []) ∧
    (findLanguages st text).length = (scoreLanguages st text).length ∧
    (∀ i, i < (scoreLanguages st text).length →
      (findLanguages st text).getD i ("", 0) =
        (if i < st.languages.length then st.languages.getD i ""
         else st.defaultLanguage,
         (scoreLanguages st text).getD i 0)) ∧
    (∀ q, findLanguages (setProbabilityThreshold st q) text =
      findLanguages st text) := by
  refine ⟨?_, ?_, ?_, fun q => rfl⟩
  · intro hv
    unfold findLanguages scoreLanguages
    rw [hv]
    simp
  · simp [findLanguages]
  · intro i hi
    unfold findLanguages getLanguageForSoftmaxLabel
    rw [List.getD_eq_getElem?_getD, List.getElem?_map, List.getElem?_range hi]
    simp only [Option.map_some', Option.getD_some]
    by_cases hin : i < st.languages.length
    · rw [if_pos ⟨Int.natCast_nonneg _, by exact_mod_cast hin⟩, if_pos hin]
      simp
    · rw [if_neg ?hc, if_neg hin]
      case hc =>
        rintro ⟨_, h2⟩
        exact hin (by exact_mod_cast h2)

/-- C4 witness: first pair on the well-formed model. -/
theorem c4_witness :
    (findLanguages (langIdInit wellFormedModel) "").getD 0 ("", 0) =
      ("en", mkRat 9 10) := by
  rw [(c4_find_languages (langIdInit wellFormedModel) "").2.2.1 0 (by decide)]
  decide

/-- C8: the query pipeline is a pure function of the loaded model data —
two classifier states produced by `Initialize` from the same model bytes
give identical `FindLanguages` output on every input text. -/
theorem c8_deterministic (md : ModelData) (st1 st2 : LangIdState)
    (text : String) (h1 : st1 = langIdInit md) (h2 : st2 = langIdInit md) :
    findLanguages st1 text = findLanguages st2 text := by
  subst h1
  subst h2
  rfl

/-- C8 witness. -/
theorem c8_witness :
    findLanguages (langIdInit wellFormedModel) "hello" =
      findLanguages (langIdInit wellFormedModel) "hello" :=
  c8_deterministic wellFormedModel _ _ "hello" rfl rfl

/-- C9: a softmax label outside `[0, languages.size())` — for example when
the score vector is longer than the language list — makes the
label-to-language lookup used by `FindLanguage` and `FindLanguages` return
the default language; the lookup is total, with no out-of-bounds
access. -/
theorem c9_label_out_of_range (st : LangIdState) (label : Int)
    (h : label < 0 ∨ (st.languages.length : Int) ≤ label) :
    getLanguageForSoftmaxLabel st label = st.defaultLanguage := by
  unfold getLanguageForSoftmaxLabel
  rw [if_neg]
  rintro ⟨h1, h2⟩
  rcases h with h | h <;> omega

/-- C9 witness: label 5 against the two-language model. -/
theorem c9_witness :
    getLanguageForSoftmaxLabel (langIdInit wellFormedModel) 5 =
      (langIdInit wellFormedModel).defaultLanguage :=
  c9_label_out_of_range _ 5 (Or.inr (by decide))

end LibTextClassifier
